import Mathlib

/-!
Verification development for the persistent memory store of the
`memory-mcp` subsystem (files `store.py`, `schema.py`, `lifecycle.py`).

The Python code is shallowly embedded as pure Lean functions:

* Python `dict`s (which preserve insertion order and have unique keys) are
  modelled as association lists `List (String × α)`; assignment to an
  existing key replaces the value in place, assignment to a fresh key
  appends at the end, mirroring CPython semantics.
* ISO-8601 timestamp strings are modelled by their parsed value, a rational
  number of seconds since the epoch (`ℚ`); a field holding an absent or
  unparseable timestamp is `none`.  The code only ever compares and
  subtracts parsed timestamps, so this abstraction is exact.
* Python `float` arithmetic is modelled by exact rational arithmetic `ℚ`;
  `round(x, n)` is modelled by exact decimal rounding (`roundTo`).  The
  transcendental `math.exp` used by the recency signal is passed to the
  search model as an explicit function parameter `expFn : ℚ → ℚ`
  (mapping days-since-last-access to the decay value), because `exp` is
  not rational-valued; every theorem below holds for an arbitrary `expFn`,
  hence in particular for the actual exponential.
* Python `set`s of strings are modelled by duplicate-free lists
  (`List.dedup` keeps the first occurrence); set equality is mutual
  membership, intersection cardinality counts members of one list that
  occur in the other.
* A raised exception is modelled as `Except.error`; the store's
  read-modify-write wrapper persists the mutated document only on normal
  return, so the `run…` wrappers below keep the old document on error.
-/

namespace MemoryMcp

/-- Association-list model of a Python `dict` with `String` keys. -/
abbrev Dict (α : Type) : Type := List (String × α)

/-- Lookup (`d[k]` / `d.get(k)`): value of the first binding of `k`. -/
def dget {α : Type} (d : Dict α) (k : String) : Option α :=
  (d.find? (fun p => p.1 == k)).map (fun p => p.2)

/-- Lookup with default (`d.get(k, v)`). -/
def dgetD {α : Type} (d : Dict α) (k : String) (v : α) : α :=
  (dget d k).getD v

/-- Membership test (`k in d`). -/
def dcontains {α : Type} (d : Dict α) (k : String) : Bool :=
  (dget d k).isSome

/-- Assignment `d[k] = v`: replace in place if present, else append,
mirroring insertion-ordered Python dicts. -/
def dset {α : Type} (d : Dict α) (k : String) (v : α) : Dict α :=
  if dcontains d k then d.map (fun p => if p.1 == k then (k, v) else p)
  else d ++ [(k, v)]

/-- Deletion `d.pop(k)` (the binding of `k` is removed). -/
def derase {α : Type} (d : Dict α) (k : String) : Dict α :=
  d.filter (fun p => p.1 != k)

/-- Python `setdefault(k, v)` restricted to its effect on the dict. -/
def dsetdefault {α : Type} (d : Dict α) (k : String) (v : α) : Dict α :=
  if dcontains d k then d else d ++ [(k, v)]

/-- Lowercasing of a string (`str.lower()`), character by character. -/
def lowerStr (s : String) : String :=
  String.mk (s.data.map Char.toLower)

/-- Boolean infix test on lists, used for substring containment. -/
def listInfix {α : Type} [DecidableEq α] : List α → List α → Bool
  | needle, [] => needle.isEmpty
  | needle, h :: t => (needle.isPrefixOf (h :: t)) || listInfix needle t

/-- Python substring containment `needle in hay`. -/
def strContains (hay needle : String) : Bool :=
  listInfix needle.data hay.data

/-- Auxiliary splitter: maximal runs of characters satisfying `p`. -/
def splitRunsAux (p : Char → Bool) (acc : List Char) : List Char → List (List Char)
  | [] => if acc.isEmpty then [] else [acc.reverse]
  | c :: cs =>
    if p c then splitRunsAux p (c :: acc) cs
    else if acc.isEmpty then splitRunsAux p [] cs
    else acc.reverse :: splitRunsAux p [] cs

/-- Maximal runs of characters satisfying `p` (e.g. regex `[a-z0-9]+`). -/
def splitRuns (p : Char → Bool) (cs : List Char) : List (List Char) :=
  splitRunsAux p [] cs

/-- Characters matched by the word regex `[a-z0-9]+` of
`_extract_significant_words`. -/
def isAlnumLower (c : Char) : Bool :=
  (decide ('a' ≤ c) && decide (c ≤ 'z')) ||
    (decide ('0' ≤ c) && decide (c ≤ '9'))

/-- Python `str.split()`: whitespace-separated non-empty tokens. -/
def splitWs (s : String) : List String :=
  (splitRuns (fun c => !c.isWhitespace) s.data).map (fun cs => String.mk cs)

/-- STOP_WORDS from `store.py`. -/
def stopWords : List String :=
  [("the"), ("a"), ("an"), ("is"), ("are"), ("was"), ("were"), ("be"), ("been"), ("being"),
   ("have"), ("has"), ("had"), ("do"), ("does"), ("did"), ("will"), ("would"), ("could"),
   ("should"), ("may"), ("might"), ("shall"), ("can"), ("and"), ("but"), ("or"), ("not"),
   ("no"), ("so"), ("if"), ("for"), ("to"), ("of"), ("in"), ("on"), ("at"), ("by"), ("with"),
   ("from"), ("as"), ("into"), ("that"), ("this"), ("it"), ("its")]

/-- VALID_CATEGORIES from `schema.py`. -/
def validCategories : List String :=
  [("user"), ("assistant"), ("project"), ("relationships"), ("tools"), ("learnings")]

/-- VALID_RELATIONS from `schema.py`. -/
def validRelations : List String :=
  [("supersedes"), ("elaborates"), ("contradicts"), ("related-to"), ("depends-on")]

/-- SCHEMA_VERSION from `schema.py`. -/
def schemaVersion : String := ("1.2")

/-- Clamp importance into `[MIN_IMPORTANCE, MAX_IMPORTANCE] = [1, 10]`
(`_clamp_importance`). -/
def clampImportance (value : ℤ) : ℤ :=
  max 1 (min 10 value)

/-- Exact decimal rounding, modelling Python `round(x, digits)` on the
ideal rational value (floats introduce representation noise and round
half-to-even; the two agree away from exact half-way decimal ties). -/
def roundTo (digits : ℕ) (x : ℚ) : ℚ :=
  ((round (x * (10 ^ digits : ℚ)) : ℤ) : ℚ) / (10 ^ digits : ℚ)

/-- Significant words of a text (`_extract_significant_words`): maximal
`[a-z0-9]` runs of the lowercased text, keeping tokens of length ≥ 3 that
are not stop words.  The result is deduplicated (first occurrences kept)
and represents the Python `set` of words. -/
def extractSignificantWords (text : String) : List String :=
  (((splitRuns isAlnumLower (lowerStr text).data).map (fun cs => String.mk cs)).filter
    (fun w => decide (3 ≤ w.length) && !(stopWords.contains w))).dedup

/-- Set equality of word lists (Python `set` equality: mutual membership). -/
def wordSetEq (a b : List String) : Bool :=
  a.all (fun w => b.contains w) && b.all (fun w => a.contains w)

/-- Shared-tag count (`_tag_overlap_count`): cardinality of the
intersection of the lowercased tag sets. -/
def tagOverlapCount (tagsA tagsB : List String) : ℕ :=
  (((tagsA.map lowerStr).dedup).filter (fun t => (tagsB.map lowerStr).contains t)).length

/-- Fraction of `newWords` appearing in `existingWords`
(`_value_similarity_ratio`); both lists are duplicate-free word sets. -/
def valueSimilarityRatio (newWords existingWords : List String) : ℚ :=
  if newWords.isEmpty then 0
  else ((newWords.filter (fun w => existingWords.contains w)).length : ℚ) / (newWords.length : ℚ)

/-- Origin metadata (`Source` dataclass of `schema.py`). -/
structure Source where
  type : String
  detail : Option String
deriving DecidableEq, Repr

/-- A unidirectional link (`Link` dataclass of `schema.py`). -/
structure Link where
  target : String
  relation : String
deriving DecidableEq, Repr

/-- A v1.2 memory entry (`MemoryEntry` dataclass of `schema.py`).
Timestamps are parsed values in seconds (`none` = absent/unparseable). -/
structure MemoryEntry where
  value : String
  created_at : Option ℚ
  updated_at : Option ℚ
  tags : List String
  confidence : Option ℚ
  importance : ℤ
  source : Source
  access_count : ℕ
  last_accessed : Option ℚ
  status : String
  links : List Link
deriving DecidableEq, Repr

/-- The persisted document: `{schema_version, session_count, memories}`. -/
structure Doc where
  schema_version : String
  session_count : ℕ
  memories : Dict (Dict MemoryEntry)
deriving DecidableEq, Repr

/-- A dedup candidate record as built by `_find_dedup_candidates`.
`match_reason` keeps the reason markers without the numeric interpolation
of the Python f-strings; `value_similarity` is the stored rounded ratio. -/
structure Candidate where
  category : String
  key : String
  value : String
  tags : List String
  match_reason : String
  tag_overlap : ℕ
  value_similarity : ℚ
deriving DecidableEq, Repr

/-- `_find_dedup_candidates`: scan `entries` for overlap with the proposed
new entry, skipping the entry whose key equals `newKey`. -/
def findDedupCandidates (newKey newValue : String) (newTags : List String)
    (entries : Dict MemoryEntry) (category : String) : List Candidate :=
  let newWords := extractSignificantWords newValue
  entries.filterMap (fun ke =>
    if ke.1 == newKey then none
    else
      let tagOverlap := tagOverlapCount newTags ke.2.tags
      let existingWords := extractSignificantWords ke.2.value
      let similarity := valueSimilarityRatio newWords existingWords
      let hasEnoughWords := decide (3 ≤ newWords.length)
      let reasons : List String :=
        (if 2 ≤ tagOverlap then [("tag_overlap")] else []) ++
          (if hasEnoughWords && decide ((0.6 : ℚ) ≤ similarity) then [("value_similarity")] else [])
      if reasons.isEmpty then none
      else some
        { category := category
          key := ke.1
          value := ke.2.value
          tags := ke.2.tags
          match_reason := String.intercalate (", ") reasons
          tag_overlap := tagOverlap
          value_similarity := roundTo 2 similarity })

/-- `_recommend_action`: choose ADD, UPDATE or NOOP from the candidates. -/
def recommendAction (candidates : List Candidate) (newValue : String) : String :=
  let newWords := extractSignificantWords newValue
  if candidates.any (fun c =>
      decide (3 ≤ newWords.length) && wordSetEq newWords (extractSignificantWords c.value)) then
    ("NOOP")
  else if candidates.any (fun c =>
      decide (3 ≤ c.tag_overlap) || decide ((0.6 : ℚ) ≤ c.value_similarity)) then
    ("UPDATE")
  else ("ADD")

/-- `_find_auto_links`: same-category entries with ≥ 2 shared (lowercased)
tags, as `related-to` links, at most 3, in scan order (the Python loop
breaks once 3 links are collected, i.e. it keeps the first 3 matches). -/
def findAutoLinks (category newKey : String) (newTags : List String)
    (catEntries : Dict MemoryEntry) : List Link :=
  if newTags.isEmpty then []
  else
    ((catEntries.filter (fun ke =>
        ke.1 != newKey &&
          decide (2 ≤ (((newTags.map lowerStr).dedup).filter
            (fun t => (ke.2.tags.map lowerStr).contains t)).length))).map
      (fun ke => ({ target := category ++ (".") ++ ke.1, relation := ("related-to") } : Link))).take 3

/-- Result of a `remember` call: dedup candidates (no write), or the
written entry with its ADD / UPDATE action. -/
inductive RememberResult where
  | candidates (cands : List Candidate) (recommendation : String)
  | update (entry : MemoryEntry)
  | add (entry : MemoryEntry)
deriving DecidableEq, Repr

/-- `MemoryStore._find_candidates`: read-only dedup scan; returns `[]`
when the exact key already exists in the target category. -/
def findCandidates (category key value : String) (tags : List String)
    (broad : Bool) (d : Doc) : List Candidate :=
  let memories := d.memories
  let catEntries := dgetD memories category []
  if dcontains catEntries key then []
  else if broad then
    (validCategories.map (fun c =>
      findDedupCandidates key value tags (dgetD memories c []) c)).flatten
  else findDedupCandidates key value tags catEntries category

/-- `MemoryStore._do_remember`: unconditional create-or-update (no dedup
check); never fails. -/
def doRemember (now : ℚ) (category key value : String) (tags : List String)
    (importance : ℤ) (sourceType : String) (confidence : Option ℚ)
    (d : Doc) : Doc × RememberResult :=
  let memories0 := dsetdefault d.memories category []
  let catEntries := dgetD memories0 category []
  match dget catEntries key with
  | some existing =>
    let e1 := { existing with value := value, updated_at := some now }
    let e2 :=
      if tags.isEmpty then e1
      else { e1 with tags := List.insertionSort (fun a b => a ≤ b) ((e1.tags ++ tags).dedup) }
    let e3 := { e2 with importance := importance }
    let e4 :=
      match confidence with
      | some c => { e3 with confidence := some c }
      | none => e3
    ({ d with memories := dset memories0 category (dset catEntries key e4) },
      RememberResult.update e4)
  | none =>
    let entry0 : MemoryEntry :=
      { value := value
        created_at := some now
        updated_at := some now
        tags := tags
        confidence := confidence
        importance := importance
        source := { type := sourceType, detail := none }
        access_count := 0
        last_accessed := none
        status := ("active")
        links := [] }
    let catEntries1 := dset catEntries key entry0
    let autoLinks := findAutoLinks category key tags catEntries1
    let entry1 := if autoLinks.isEmpty then entry0 else { entry0 with links := autoLinks }
    let catEntries2 := dset catEntries1 key entry1
    ({ d with memories := dset memories0 category catEntries2 },
      RememberResult.add entry1)

/-- `MemoryStore.remember`: validate the category, clamp importance, sort
the tags, run the dedup scan unless `force`, and write via `doRemember`.
When candidates are found nothing is written and the input document is
returned untouched. -/
def remember (now : ℚ) (category key value : String) (tags : List String)
    (importance : ℤ) (sourceType : String) (confidence : Option ℚ)
    (force broad : Bool) (d : Doc) : Except String (Doc × RememberResult) :=
  if category ∈ validCategories then
    let importance1 := clampImportance importance
    let resolvedTags := if tags.isEmpty then [] else List.insertionSort (fun a b => a ≤ b) tags
    if force then
      .ok (doRemember now category key value resolvedTags importance1 sourceType confidence d)
    else
      let cands := findCandidates category key value resolvedTags broad d
      if cands.isEmpty then
        .ok (doRemember now category key value resolvedTags importance1 sourceType confidence d)
      else .ok (d, RememberResult.candidates cands (recommendAction cands value))
  else .error (("Invalid category ") ++ category)

/-- Loop body of `_remove_incoming_links` for one entry: drop every link
whose target is `ref` (an entry with an empty link list is left as it
is, which amounts to the same thing). -/
def scrubLinks (ref : String) (ke : String × MemoryEntry) : String × MemoryEntry :=
  if ke.2.links.isEmpty then ke
  else (ke.1, { ke.2 with links := ke.2.links.filter (fun lk => lk.target != ref) })

/-- `_remove_incoming_links`: drop every link whose target is
`targetRef` from every entry of every category. -/
def removeIncomingLinks (memories : Dict (Dict MemoryEntry)) (targetRef : String) :
    Dict (Dict MemoryEntry) :=
  memories.map (fun ces => (ces.1, ces.2.map (scrubLinks targetRef)))

/-- `MemoryStore.forget`: validate, pop the entry (KeyError when absent),
scrub incoming links, then dump the (already mutated) document as the
`.backup.json` content.  The returned triple is
(new document, removed entry, backup-file content). -/
def forget (category key : String) (d : Doc) : Except String (Doc × MemoryEntry × Doc) :=
  if category ∈ validCategories then
    let targetRef := category ++ (".") ++ key
    let catEntries := dgetD d.memories category []
    match dget catEntries key with
    | none => .error (("Key not found: ") ++ targetRef)
    | some removed =>
      let memories1 := dset d.memories category (derase catEntries key)
      let memories2 := removeIncomingLinks memories1 targetRef
      let d1 : Doc := { d with memories := memories2 }
      .ok (d1, removed, d1)
  else .error (("Invalid category ") ++ category)

/-- Access-tracking update applied by `recall` and `search`:
increment `access_count`, set `last_accessed` to now. -/
def bumpAccess (now : ℚ) (e : MemoryEntry) : MemoryEntry :=
  { e with access_count := e.access_count + 1, last_accessed := some now }

/-- `MemoryStore.recall`: retrieve one entry (KeyError when absent) or a
whole category, bumping access tracking on everything returned. -/
def recallOp (now : ℚ) (category : String) (key : Option String) (d : Doc) :
    Except String (Doc × Dict MemoryEntry) :=
  if category ∈ validCategories then
    let catEntries := dgetD d.memories category []
    match key with
    | some k =>
      match dget catEntries k with
      | none => .error (("Key not found: ") ++ category ++ (".") ++ k)
      | some e =>
        let e1 := bumpAccess now e
        .ok ({ d with memories := dset d.memories category (dset catEntries k e1) }, [(k, e1)])
    | none =>
      let catEntries1 := catEntries.map (fun ke => (ke.1, bumpAccess now ke.2))
      let memories1 :=
        if dcontains d.memories category then dset d.memories category catEntries1
        else d.memories
      .ok ({ d with memories := memories1 }, catEntries1)
  else .error (("Invalid category ") ++ category)

/-- `MemoryStore.add_link`: validate categories, relation and both
endpoints; report (without error) a duplicate `(target, relation)` link;
otherwise append the link to the source entry. -/
def addLink (sourceCategory sourceKey targetCategory targetKey relation : String)
    (d : Doc) : Except String (Doc × Bool) :=
  if sourceCategory ∈ validCategories then
    if targetCategory ∈ validCategories then
      if relation ∈ validRelations then
        let targetRef := targetCategory ++ (".") ++ targetKey
        let srcEntries := dgetD d.memories sourceCategory []
        match dget srcEntries sourceKey with
        | none => .error (("Source entry not found: ") ++ sourceCategory ++ (".") ++ sourceKey)
        | some sourceEntry =>
          match dget (dgetD d.memories targetCategory []) targetKey with
          | none => .error (("Target entry not found: ") ++ targetRef)
          | some _ =>
            if sourceEntry.links.any (fun lk =>
                lk.target == targetRef && lk.relation == relation) then
              .ok (d, false)
            else
              let e1 := { sourceEntry with
                links := sourceEntry.links ++ [{ target := targetRef, relation := relation }] }
              .ok ({ d with
                memories := dset d.memories sourceCategory (dset srcEntries sourceKey e1) },
                true)
      else .error (("Invalid relation ") ++ relation)
    else .error (("Invalid category ") ++ targetCategory)
  else .error (("Invalid category ") ++ sourceCategory)

/-- `MemoryStore.remove_link`: drop all links from source to target
(any relation); KeyError when the source entry is absent or when no link
matched (in the latter case the staged in-memory change is discarded
because the exception prevents the save). -/
def removeLink (sourceCategory sourceKey targetCategory targetKey : String)
    (d : Doc) : Except String (Doc × Bool) :=
  if sourceCategory ∈ validCategories then
    if targetCategory ∈ validCategories then
      let targetRef := targetCategory ++ (".") ++ targetKey
      let srcEntries := dgetD d.memories sourceCategory []
      match dget srcEntries sourceKey with
      | none => .error (("Source entry not found: ") ++ sourceCategory ++ (".") ++ sourceKey)
      | some sourceEntry =>
        let newLinks := sourceEntry.links.filter (fun lk => lk.target != targetRef)
        if newLinks.length == sourceEntry.links.length then
          .error (("No link to ") ++ targetRef)
        else
          let e1 := { sourceEntry with links := newLinks }
          .ok ({ d with
            memories := dset d.memories sourceCategory (dset srcEntries sourceKey e1) },
            true)
    else .error (("Invalid category ") ++ targetCategory)
  else .error (("Invalid category ") ++ sourceCategory)

/-- `MemoryStore._read_modify_write` persistence semantics for `forget`:
the mutated document is saved only when the mutator returns normally; on
an exception the file keeps its previous content. -/
def runForget (category key : String) (d : Doc) : Doc :=
  match forget category key d with
  | .ok (d1, _, _) => d1
  | .error _ => d

/-- Persistence semantics of `recall` (see `runForget`). -/
def runRecall (now : ℚ) (category : String) (key : Option String) (d : Doc) : Doc :=
  match recallOp now category key d with
  | .ok (d1, _) => d1
  | .error _ => d

/-- Persistence semantics of `add_link` (see `runForget`). -/
def runAddLink (sc sk tc tk relation : String) (d : Doc) : Doc :=
  match addLink sc sk tc tk relation d with
  | .ok (d1, _) => d1
  | .error _ => d

/-- Persistence semantics of `remove_link` (see `runForget`). -/
def runRemoveLink (sc sk tc tk : String) (d : Doc) : Doc :=
  match removeLink sc sk tc tk d with
  | .ok (d1, _) => d1
  | .error _ => d

/-- The four search ranking signals (`SEARCH_WEIGHTS` keys). -/
structure Signals where
  text_match : ℚ
  tag_match : ℚ
  importance : ℚ
  recency : ℚ
deriving DecidableEq, Repr

/-- `_compute_text_match_score`: 1.0 exact key, 0.7 key substring,
0.5 value or tag substring, else 0. -/
def computeTextMatchScore (key : String) (e : MemoryEntry) (queryLower : String) : ℚ :=
  if lowerStr key == queryLower then 1
  else if strContains (lowerStr key) queryLower then 0.7
  else if strContains (lowerStr e.value) queryLower then 0.5
  else if e.tags.any (fun t => strContains (lowerStr t) queryLower) then 0.5
  else 0

/-- `_compute_tag_match_score`: fraction of query terms occurring as a
substring of some (lowercased) tag, capped at 1. -/
def computeTagMatchScore (e : MemoryEntry) (queryTerms : List String) : ℚ :=
  if queryTerms.isEmpty then 0
  else
    let tagsLower := e.tags.map lowerStr
    if tagsLower.isEmpty then 0
    else
      let matching := (queryTerms.filter (fun term =>
        tagsLower.any (fun tag => strContains tag term))).length
      min ((matching : ℚ) / (max queryTerms.length 1 : ℚ)) 1

/-- `_compute_importance_score`: importance normalized from 1-10 to 0-1. -/
def computeImportanceScore (e : MemoryEntry) : ℚ :=
  (e.importance : ℚ) / 10

/-- `_compute_recency_score`: decay of days since `last_accessed`, 0 when
never accessed.  In the source the decay is
`exp(-days_since / RECENCY_DECAY_DAYS)`; the transcendental `exp` is
abstracted into the parameter `expFn` applied to `days_since / 30`
(`expFn r` stands for `exp(-r)`). -/
def computeRecencyScore (expFn : ℚ → ℚ) (e : MemoryEntry) (now : ℚ) : ℚ :=
  match e.last_accessed with
  | none => 0
  | some t => expFn (((now - t) / 86400) / 30)

/-- `_compute_search_score`: weighted combination with `SEARCH_WEIGHTS`. -/
def computeSearchScore (s : Signals) : ℚ :=
  0.4 * s.text_match + 0.2 * s.tag_match + 0.25 * s.importance + 0.15 * s.recency

/-- `_find_match_reasons`: which of key/value/tags contain the query. -/
def findMatchReasons (key : String) (e : MemoryEntry) (queryLower : String) : List String :=
  (if strContains (lowerStr key) queryLower then [("key")] else []) ++
    (if strContains (lowerStr e.value) queryLower then [("value")] else []) ++
      (if e.tags.any (fun t => strContains (lowerStr t) queryLower) then [("tag")] else [])

/-- One ranked search result, as assembled inside `MemoryStore.search`
(`entry` is the post-bump snapshot, `score` and `signals` are rounded to
4 decimals). -/
structure SearchResult where
  category : String
  key : String
  entry : MemoryEntry
  score : ℚ
  signals : Signals
  match_reason : String
deriving DecidableEq, Repr

/-- The signal vector of an entry for a query, computed from the entry
state current at scoring time. -/
def mkSignals (expFn : ℚ → ℚ) (now : ℚ) (queryLower : String) (queryTerms : List String)
    (key : String) (e : MemoryEntry) : Signals :=
  { text_match := computeTextMatchScore key e queryLower
    tag_match := computeTagMatchScore e queryTerms
    importance := computeImportanceScore e
    recency := computeRecencyScore expFn e now }

/-- The result record built for a matching entry: signals are computed
from the pre-bump entry `e`, then the entry is bumped and snapshotted. -/
def mkResult (expFn : ℚ → ℚ) (now : ℚ) (queryLower : String) (queryTerms : List String)
    (category key : String) (e : MemoryEntry) : SearchResult :=
  let sig := mkSignals expFn now queryLower queryTerms key e
  { category := category
    key := key
    entry := bumpAccess now e
    score := roundTo 4 (computeSearchScore sig)
    signals :=
      { text_match := roundTo 4 sig.text_match
        tag_match := roundTo 4 sig.tag_match
        importance := roundTo 4 sig.importance
        recency := roundTo 4 sig.recency }
    match_reason := String.intercalate (", ") (findMatchReasons key e queryLower) }

/-- Scan of one category: matching entries are scored (pre-mutation
state) and then access-bumped in place; non-matching entries are left
untouched.  Returns the updated entry dict and the results in scan
order. -/
def scanEntries (expFn : ℚ → ℚ) (now : ℚ) (queryLower : String) (queryTerms : List String)
    (category : String) : Dict MemoryEntry → Dict MemoryEntry × List SearchResult
  | [] => ([], [])
  | (k, e) :: rest =>
    let tail := scanEntries expFn now queryLower queryTerms category rest
    if (findMatchReasons k e queryLower).isEmpty then ((k, e) :: tail.1, tail.2)
    else ((k, bumpAccess now e) :: tail.1,
      mkResult expFn now queryLower queryTerms category k e :: tail.2)

/-- Scan of every category in document order (the `category is None`
branch of `search`). -/
def scanAll (expFn : ℚ → ℚ) (now : ℚ) (queryLower : String) (queryTerms : List String) :
    List (String × Dict MemoryEntry) → List (String × Dict MemoryEntry) × List SearchResult
  | [] => ([], [])
  | (c, es) :: rest =>
    let hd := scanEntries expFn now queryLower queryTerms c es
    let tl := scanAll expFn now queryLower queryTerms rest
    ((c, hd.1) :: tl.1, hd.2 ++ tl.2)

/-- Descending-score ordering used by `results.sort(key=..., reverse=True)`. -/
def scoreGe (a b : SearchResult) : Prop :=
  b.score ≤ a.score

instance : DecidableRel scoreGe :=
  fun a b => inferInstanceAs (Decidable (b.score ≤ a.score))

instance : IsTotal SearchResult scoreGe :=
  ⟨fun a b => le_total b.score a.score⟩

instance : IsTrans SearchResult scoreGe :=
  ⟨fun _ _ _ h1 h2 => le_trans h2 h1⟩

/-- The unsorted result list of a `search` call, in scan order. -/
def searchScanResults (expFn : ℚ → ℚ) (now : ℚ) (queryLower : String)
    (queryTerms : List String) (category : Option String)
    (memories : Dict (Dict MemoryEntry)) : List SearchResult :=
  match category with
  | some c => (scanEntries expFn now queryLower queryTerms c (dgetD memories c [])).2
  | none => (scanAll expFn now queryLower queryTerms memories).2

/-- The mutator body of `MemoryStore.search`: scan the requested scope,
bump matched entries, sort results by descending (rounded) score with
Python's stable sort. -/
def searchRun (expFn : ℚ → ℚ) (now : ℚ) (query : String) (category : Option String)
    (d : Doc) : Doc × List SearchResult :=
  let queryLower := lowerStr query
  let queryTerms := splitWs queryLower
  match category with
  | some c =>
    let res := scanEntries expFn now queryLower queryTerms c (dgetD d.memories c [])
    let memories1 :=
      if dcontains d.memories c then dset d.memories c res.1 else d.memories
    ({ d with memories := memories1 }, List.insertionSort scoreGe res.2)
  | none =>
    let res := scanAll expFn now queryLower queryTerms d.memories
    ({ d with memories := res.1 }, List.insertionSort scoreGe res.2)

/-- `MemoryStore.search` including the category validation that precedes
the mutator. -/
def search (expFn : ℚ → ℚ) (now : ℚ) (query : String) (category : Option String)
    (d : Doc) : Except String (Doc × List SearchResult) :=
  match category with
  | some c =>
    if c ∈ validCategories then .ok (searchRun expFn now query (some c) d)
    else .error (("Invalid category ") ++ c)
  | none => .ok (searchRun expFn now query none d)

/-- A possibly pre-v1.2 persisted entry: each field that a migration can
add is optional, `none` meaning the JSON field is absent.
`last_accessed` is doubly optional: the outer layer is field presence,
the inner layer is the stored null. -/
structure RawEntry where
  value : String
  created_at : String
  updated_at : String
  tags : List String
  confidence : Option ℚ
  importance : Option ℤ
  source : Option Source
  access_count : Option ℕ
  last_accessed : Option (Option ℚ)
  status : Option String
  links : Option (List Link)
deriving DecidableEq, Repr

/-- A possibly pre-v1.2 persisted document (`session_count` may be
absent in v1.0 files). -/
structure RawDoc where
  schema_version : String
  session_count : Option ℕ
  memories : Dict (Dict RawEntry)
deriving DecidableEq, Repr

/-- Per-entry part of `migrate_v1_0_to_v1_1`: `setdefault` each of the
five fields introduced by v1.1. -/
def migrateEntry10to11 (e : RawEntry) : RawEntry :=
  { e with
    importance := some (e.importance.getD 5)
    source := some (e.source.getD { type := ("session"), detail := none })
    access_count := some (e.access_count.getD 0)
    last_accessed := some (e.last_accessed.getD none)
    status := some (e.status.getD ("active")) }

/-- `migrate_v1_0_to_v1_1` from `schema.py`: deep-copies the input (the
Lean model is pure, so non-mutation of the argument is inherent), adds
the v1.1 defaults to every entry of every category, defaults
`session_count`, and bumps the schema version. -/
def migrate_v1_0_to_v1_1 (d : RawDoc) : RawDoc :=
  { schema_version := ("1.1")
    session_count := some (d.session_count.getD 0)
    memories := d.memories.map (fun ces => (ces.1, ces.2.map (fun ke => (ke.1, migrateEntry10to11 ke.2)))) }

/-- `migrate_v1_1_to_v1_2` from `schema.py`: adds an empty `links` list
to every entry and bumps the schema version. -/
def migrate_v1_1_to_v1_2 (d : RawDoc) : RawDoc :=
  { schema_version := ("1.2")
    session_count := d.session_count
    memories := d.memories.map (fun ces => (ces.1, ces.2.map (fun ke =>
      (ke.1, { ke.2 with links := some (ke.2.links.getD []) })))) }

/-- `MemoryStore._auto_migrate_if_needed` as a document transform (the
pre-migration backup files it also writes are additive and not modelled
here): current documents pass through, a v1.0 document is migrated to
v1.1 and then, the version variable now being "1.1", on to v1.2. -/
def autoMigrate (d : RawDoc) : RawDoc :=
  if d.schema_version == schemaVersion then d
  else
    let step1 :=
      if d.schema_version == ("1.0") then (migrate_v1_0_to_v1_1 d, ("1.1"))
      else (d, d.schema_version)
    if step1.2 == ("1.1") then migrate_v1_1_to_v1_2 step1.1 else step1.1

/-- The categories with their key lists — the entry identity structure a
migration must preserve. -/
def rawKeyStructure (d : RawDoc) : List (String × List String) :=
  d.memories.map (fun ces => (ces.1, ces.2.map (fun ke => ke.1)))

/-- Total number of entries of a raw document. -/
def rawEntryCount (d : RawDoc) : ℕ :=
  (d.memories.map (fun ces => ces.2.length)).sum

/-- A staleness finding of `_check_staleness` (`days_old` is the rounded
display value of the finding dict). -/
structure StaleFinding where
  category : String
  key : String
  days_old : ℚ
deriving DecidableEq, Repr

/-- `_check_staleness` from `lifecycle.py`: flag entries that were never
accessed and whose parseable `created_at` is at least
`STALENESS_DAYS_THRESHOLD = 7` days old (`days_old < 7` returns `None`,
so the 7-day boundary itself is flagged). This model receives `now` and
the parsed `created_at` in seconds. -/
def checkStaleness (category key : String) (e : MemoryEntry) (now : ℚ) :
    Option StaleFinding :=
  if 0 < e.access_count then none
  else
    match e.created_at with
    | none => none
    | some created =>
      let daysOld := (now - created) / 86400
      if daysOld < 7 then none
      else some { category := category, key := key, days_old := roundTo 1 daysOld }

/-- Whether an operation raised (`Except.error`). -/
def isErr {ε α : Type} : Except ε α → Bool
  | .error _ => true
  | .ok _ => false

/-- Keys of an association list are distinct — always true of a loaded
Python dict. -/
def DictWF {α : Type} (l : Dict α) : Prop :=
  (l.map Prod.fst).Nodup

/-- Well-formedness of a document: category names and, within each
category, entry keys are distinct. -/
def DocWF (d : Doc) : Prop :=
  DictWF d.memories ∧ ∀ ces ∈ d.memories, DictWF ces.2

/-- Modelled from the claim wording (a comparison definition, not a
source translation): the recommendation cascade of the specification,
using the exact (unrounded) value-similarity ratio of each candidate,
to be compared against `recommendAction`, which reads the rounded
`value_similarity` field. -/
def recommendActionSpec (candidates : List Candidate) (newValue : String) : String :=
  let newWords := extractSignificantWords newValue
  if candidates.any (fun c =>
      decide (3 ≤ newWords.length) && wordSetEq newWords (extractSignificantWords c.value)) then
    ("NOOP")
  else if candidates.any (fun c =>
      decide (3 ≤ c.tag_overlap) ||
        decide ((0.6 : ℚ) ≤ valueSimilarityRatio newWords (extractSignificantWords c.value))) then
    ("UPDATE")
  else ("ADD")

/-- The entry written by a `remember` result, when it wrote one. -/
def resultEntry : RememberResult → Option MemoryEntry
  | .update e => some e
  | .add e => some e
  | .candidates _ _ => none

/-- The dedup recommendation of a `remember` result, when it has one. -/
def resultRecommendation : RememberResult → Option String
  | .candidates _ r => some r
  | _ => none

/-- Claim C2, spelled out: every result of a `search` call stems from an
entry of the pre-call document that textually matches the query; its
score is the 4-decimal rounding of the weighted signal sum computed on
that pre-mutation entry while the returned snapshot is the post-bump
entry; the result list is sorted by descending score and, for every
score value, ties keep scan order. -/
def searchClaimProp (expFn : ℚ → ℚ) (now : ℚ) (query : String)
    (category : Option String) (d : Doc) : Prop :=
  let ql := lowerStr query
  let qts := splitWs ql
  let results := (searchRun expFn now query category d).2
  (∀ r ∈ results, ∃ c es e, (c, es) ∈ d.memories ∧ (r.key, e) ∈ es ∧ r.category = c ∧
      (∀ c0, category = some c0 → c = c0) ∧
      (strContains (lowerStr r.key) ql || strContains (lowerStr e.value) ql ||
        e.tags.any (fun t => strContains (lowerStr t) ql)) = true ∧
      r.score = roundTo 4 (computeSearchScore (mkSignals expFn now ql qts r.key e)) ∧
      |r.score - computeSearchScore (mkSignals expFn now ql qts r.key e)| ≤ 1 / 20000 ∧
      r.entry = bumpAccess now e) ∧
  results.Pairwise scoreGe ∧
  (∀ s : ℚ, results.filter (fun r => decide (r.score = s)) =
    (searchScanResults expFn now ql qts category d.memories).filter
      (fun r => decide (r.score = s)))

/-- Claim C4, spelled out: with the key already present, `remember`
with `force = false` takes the UPDATE action — never the candidates
action — replacing the value, bumping `updated_at` and merging tags by
set union. -/
def rememberUpdateClaimProp (now : ℚ) (category key value : String)
    (tags : List String) (imp : ℤ) (sourceType : String) (conf : Option ℚ)
    (broad : Bool) (d : Doc) (old : MemoryEntry) : Prop :=
  ∃ d1 e,
    remember now category key value tags imp sourceType conf false broad d =
      .ok (d1, RememberResult.update e) ∧
    e.value = value ∧
    e.updated_at = some now ∧
    (tags ≠ [] → ∀ t, t ∈ e.tags ↔ t ∈ old.tags ∨ t ∈ tags) ∧
    (tags = [] → e.tags = old.tags)

/-- Claim C10, spelled out: the UPDATE branch leaves `created_at`,
`access_count`, `last_accessed`, `status`, `links` (and `source`)
untouched, and a `None` confidence argument keeps the stored
confidence. -/
def rememberFrameClaimProp (now : ℚ) (category key value : String)
    (tags : List String) (imp : ℤ) (sourceType : String) (conf : Option ℚ)
    (force broad : Bool) (d : Doc) (old : MemoryEntry) : Prop :=
  ∃ d1 e,
    remember now category key value tags imp sourceType conf force broad d =
      .ok (d1, RememberResult.update e) ∧
    e.created_at = old.created_at ∧
    e.access_count = old.access_count ∧
    e.last_accessed = old.last_accessed ∧
    e.status = old.status ∧
    e.links = old.links ∧
    e.source = old.source ∧
    (conf = none → e.confidence = old.confidence)

/-- Amended claim C3, spelled out: an UPDATE write with a nonempty tags
argument stores a sorted duplicate-free tag list (and an empty tags
argument leaves the stored tags unchanged), while an ADD write stores
the input tags sorted but with duplicates preserved. -/
def rememberTagsClaimProp (now : ℚ) (category key value : String)
    (tags : List String) (imp : ℤ) (sourceType : String) (conf : Option ℚ)
    (force broad : Bool) (d : Doc) : Prop :=
  (∀ d1 e,
    remember now category key value tags imp sourceType conf force broad d =
        .ok (d1, RememberResult.update e) →
      tags ≠ [] → e.tags.Sorted (· ≤ ·) ∧ e.tags.Nodup) ∧
  (∀ d1 e,
    remember now category key value tags imp sourceType conf force broad d =
        .ok (d1, RememberResult.add e) →
      e.tags.Sorted (· ≤ ·) ∧ e.tags.Perm tags)

/-- Candidacy condition of the dedup scan, phrased on the raw entry. -/
def isDedupCandidate (newKey newValue : String) (newTags : List String)
    (ke : String × MemoryEntry) : Prop :=
  ke.1 ≠ newKey ∧
    (2 ≤ tagOverlapCount newTags ke.2.tags ∨
      (3 ≤ (extractSignificantWords newValue).length ∧
        (0.6 : ℚ) ≤ valueSimilarityRatio (extractSignificantWords newValue)
          (extractSignificantWords ke.2.value)))

/-- Amended claim C5, spelled out: over the candidate list produced by
the dedup scan, the recommendation is NOOP when some candidate entry has
the same significant-word set as the substantial new value; else UPDATE
when some candidate has tag overlap ≥ 3 or value similarity — rounded to
2 decimals, as stored in the candidate record — at least 0.6; else ADD. -/
def recommendClaimProp (newKey newValue : String) (newTags : List String)
    (entries : Dict MemoryEntry) (category : String) : Prop :=
  let cands := findDedupCandidates newKey newValue newTags entries category
  let newWords := extractSignificantWords newValue
  let pNoop : Prop := ∃ ke ∈ entries, isDedupCandidate newKey newValue newTags ke ∧
    3 ≤ newWords.length ∧ wordSetEq newWords (extractSignificantWords ke.2.value) = true
  let pUpd : Prop := ∃ ke ∈ entries, isDedupCandidate newKey newValue newTags ke ∧
    (3 ≤ tagOverlapCount newTags ke.2.tags ∨
      (0.6 : ℚ) ≤ roundTo 2 (valueSimilarityRatio newWords (extractSignificantWords ke.2.value)))
  (pNoop → recommendAction cands newValue = ("NOOP")) ∧
  (¬pNoop → pUpd → recommendAction cands newValue = ("UPDATE")) ∧
  (¬pNoop → ¬pUpd → recommendAction cands newValue = ("ADD"))

/-- Claim C6, spelled out: on a v1.0 document the store migration path
is exactly the two-hop composition of the pure transforms, and either
transform preserves the category/key structure (hence the entry count). -/
def migrationClaimProp (d : RawDoc) : Prop :=
  autoMigrate d = migrate_v1_1_to_v1_2 (migrate_v1_0_to_v1_1 d) ∧
  rawKeyStructure (migrate_v1_0_to_v1_1 d) = rawKeyStructure d ∧
  rawKeyStructure (migrate_v1_1_to_v1_2 d) = rawKeyStructure d ∧
  rawEntryCount (migrate_v1_0_to_v1_1 d) = rawEntryCount d ∧
  rawEntryCount (migrate_v1_1_to_v1_2 d) = rawEntryCount d

/-- Claim C7, spelled out: the four failure modes named by the claim do
fail, and any failing run of those operations leaves the persisted
document exactly as it was (the save only happens after the mutator
returns). -/
def errorFrameClaimProp (now : ℚ) (category key sc sk tc tk relation : String)
    (d : Doc) : Prop :=
  (isErr (forget category key d) = true → runForget category key d = d) ∧
  (isErr (recallOp now category (some key) d) = true →
    runRecall now category (some key) d = d) ∧
  (isErr (addLink sc sk tc tk relation d) = true →
    runAddLink sc sk tc tk relation d = d) ∧
  (isErr (removeLink sc sk tc tk d) = true → runRemoveLink sc sk tc tk d = d) ∧
  (category ∈ validCategories → dget (dgetD d.memories category []) key = none →
    isErr (forget category key d) = true) ∧
  (category ∈ validCategories → dget (dgetD d.memories category []) key = none →
    isErr (recallOp now category (some key) d) = true) ∧
  (sc ∈ validCategories → tc ∈ validCategories → relation ∉ validRelations →
    isErr (addLink sc sk tc tk relation d) = true) ∧
  (sc ∈ validCategories → tc ∈ validCategories →
    dget (dgetD d.memories sc []) sk = none →
    isErr (addLink sc sk tc tk relation d) = true) ∧
  (sc ∈ validCategories → tc ∈ validCategories →
    ∀ e, dget (dgetD d.memories sc []) sk = some e →
    (∀ lk ∈ e.links, lk.target ≠ tc ++ (".") ++ tk) →
    isErr (removeLink sc sk tc tk d) = true)

/-- Claim C8, spelled out: after a successful `forget(category, key)` no
surviving entry keeps a link targeting `category.key`, and every
surviving entry survives with exactly its other-target links. -/
def forgetLinksClaimProp (category key : String) (d : Doc) : Prop :=
  ∀ d1 removed backup, forget category key d = .ok (d1, removed, backup) →
    (∀ ces ∈ d1.memories, ∀ ke ∈ ces.2, ∀ lk ∈ ke.2.links,
      lk.target ≠ category ++ (".") ++ key) ∧
    (∀ ces ∈ d.memories, ∀ ke ∈ ces.2, ¬(ces.1 = category ∧ ke.1 = key) →
      ∃ es1, (ces.1, es1) ∈ d1.memories ∧
        (ke.1, { ke.2 with links :=
          ke.2.links.filter (fun lk => lk.target != category ++ (".") ++ key) }) ∈ es1)

/-- Claim C9, spelled out: with a parseable `created_at`, a
never-accessed entry is flagged stale exactly when it is at least
7 × 86400 seconds old (boundary inclusive), and an accessed entry is
never flagged. -/
def stalenessClaimProp (category key : String) (e : MemoryEntry)
    (now created : ℚ) : Prop :=
  (e.access_count = 0 →
    ((checkStaleness category key e now).isSome ↔ 7 * 86400 ≤ now - created)) ∧
  (0 < e.access_count → checkStaleness category key e now = none)

/-- The freshly initialized document (`_ensure_file_exists`). -/
def emptyDoc : Doc :=
  { schema_version := schemaVersion, session_count := 0,
    memories := validCategories.map (fun c => (c, [])) }

/-- Sample entry: never accessed, created at time 0. -/
def eStale : MemoryEntry :=
  { value := ("v"), created_at := some 0, updated_at := some 0, tags := [],
    confidence := none, importance := 5,
    source := { type := ("session"), detail := none },
    access_count := 0, last_accessed := none, status := ("active"), links := [] }

/-- Sample entry `user.name`. -/
def eName : MemoryEntry :=
  { eStale with value := ("Alice") }

/-- The two links held by the sample entry `user.other`. -/
def linksOfOther : List Link :=
  [{ target := ("user.name"), relation := ("related-to") },
   { target := ("user.other"), relation := ("elaborates") }]

/-- Sample entry holding one link to `user.name` and one to `user.other`. -/
def eLinked : MemoryEntry :=
  { eStale with value := ("other entry"), links := linksOfOther }

/-- Sample document with entries `user.name` and `user.other` where
`user.other` links to `user.name`. -/
def docLinks : Doc :=
  { emptyDoc with
    memories := dset emptyDoc.memories ("user") (dset (dset [] ("name") eName) ("other") eLinked) }

/-- A 42-significant-word value. -/
def wideValue : String :=
  ("w01 w02 w03 w04 w05 w06 w07 w08 w09 w10 w11 w12 w13 w14 w15 w16 w17 w18 w19 w20 w21 w22 w23 w24 w25 w26 w27 w28 w29 w30 w31 w32 w33 w34 w35 w36 w37 w38 w39 w40 w41 w42")

/-- The 25-word prefix of `wideValue`: similarity 25/42 ≈ 0.595 < 0.6,
which rounds to exactly 0.6. -/
def narrowValue : String :=
  ("w01 w02 w03 w04 w05 w06 w07 w08 w09 w10 w11 w12 w13 w14 w15 w16 w17 w18 w19 w20 w21 w22 w23 w24 w25")

/-- Existing entry for the rounding counterexample: 2 shared tags (so it
is a candidate) and value similarity 25/42. -/
def roundingEntry : MemoryEntry :=
  { eStale with value := narrowValue, tags := [("t1"), ("t2")] }

/-- Category dict containing only `roundingEntry` under key `old`. -/
def roundingEntries : Dict MemoryEntry := [(("old"), roundingEntry)]

/-- Document for the rounding counterexample. -/
def roundingDoc : Doc :=
  { emptyDoc with memories := dset emptyDoc.memories ("user") roundingEntries }

/-- Sample v1.0 raw document with one entry. -/
def rawDocV10 : RawDoc :=
  { schema_version := ("1.0"), session_count := none,
    memories := [(("user"),
      [(("name"),
        { value := ("Alice"), created_at := ("t0"), updated_at := ("t0"),
          tags := [], confidence := none, importance := none, source := none,
          access_count := none, last_accessed := none, status := none,
          links := none })])] }

theorem mem_of_dget {α : Type} {l : Dict α} {k : String} {v : α}
    (h : dget l k = some v) : (k, v) ∈ l := by
  unfold dget at h
  cases hf : l.find? (fun p => p.1 == k) with
  | none => rw [hf] at h; simp at h
  | some p =>
    rw [hf] at h
    simp at h
    have hp := List.mem_of_find?_eq_some hf
    have hk := List.find?_some hf
    simp at hk
    have hpkv : p = (k, v) := by
      cases p
      simp_all
    rw [hpkv] at hp
    exact hp

theorem dget_of_mem_wf {α : Type} {l : Dict α} (hwf : DictWF l) {k : String}
    {v : α} (h : (k, v) ∈ l) : dget l k = some v := by
  induction l with
  | nil => simp at h
  | cons p rest ih =>
    have hw : (p.1 :: rest.map Prod.fst).Nodup := by simpa [DictWF] using hwf
    rcases List.mem_cons.mp h with he | hm
    · rw [← he]
      simp [dget]
    · have hmem : k ∈ rest.map Prod.fst := List.mem_map.mpr ⟨(k, v), hm, rfl⟩
      have hne : p.1 ≠ k := by
        intro hk
        exact (List.nodup_cons.mp hw).1 (hk ▸ hmem)
      have ihres := ih ((List.nodup_cons.mp hw).2) hm
      simpa [dget, List.find?_cons, hne] using ihres

/-- Claim C9: for every entry with `access_count == 0` and a parseable
`created_at`, the lifecycle analyzer flags it stale exactly when
`now - created_at >= 7 days`, boundary inclusive; entries with
`access_count > 0` are never flagged stale. -/
theorem claim_C9_staleness_boundary (category key : String) (e : MemoryEntry)
    (now created : ℚ) (hc : e.created_at = some created) :
    stalenessClaimProp category key e now created := by
  unfold stalenessClaimProp
  constructor
  · intro h0
    simp only [checkStaleness, hc, h0, lt_irrefl, if_false]
    by_cases hlt : (now - created) / 86400 < 7
    · rw [if_pos hlt]
      simp only [Option.isSome_none, Bool.false_eq_true, false_iff]
      intro hge
      rw [div_lt_iff₀ (by norm_num : (0 : ℚ) < 86400)] at hlt
      linarith
    · rw [if_neg hlt]
      simp only [Option.isSome_some, true_iff]
      push_neg at hlt
      rw [le_div_iff₀ (by norm_num : (0 : ℚ) < 86400)] at hlt
      linarith
  · intro hpos
    simp only [checkStaleness]
    rw [if_pos hpos]

/-- Witness for C9 at the documented boundary: an entry created exactly
7.0 days before `now` is flagged, and flipping its access count disables
the flag. -/
theorem claim_C9_staleness_boundary_witness :
    stalenessClaimProp ("user") ("k") eStale 604800 0 :=
  claim_C9_staleness_boundary ("user") ("k") eStale 604800 0 rfl

/-- Claim C6: both migrations are pure (inherent to this embedding, and
ensured by `copy.deepcopy` in the source), the store migration path on a
v1.0 document equals the two-hop composition of the pure transforms, and
each transform preserves the category/key structure and the entry
count. -/
theorem claim_C6_migration_chaining (d : RawDoc)
    (h10 : d.schema_version = ("1.0")) : migrationClaimProp d := by
  unfold migrationClaimProp
  refine ⟨?_, ?_, ?_, ?_, ?_⟩
  · unfold autoMigrate
    rw [h10]
    simp [schemaVersion]
  · simp [rawKeyStructure, migrate_v1_0_to_v1_1, List.map_map, Function.comp_def]
  · simp [rawKeyStructure, migrate_v1_1_to_v1_2, List.map_map, Function.comp_def]
  · simp [rawEntryCount, migrate_v1_0_to_v1_1, List.map_map, Function.comp_def]
  · simp [rawEntryCount, migrate_v1_1_to_v1_2, List.map_map, Function.comp_def]

/-- Witness for C6 on a concrete v1.0 document. -/
theorem claim_C6_migration_chaining_witness : migrationClaimProp rawDocV10 :=
  claim_C6_migration_chaining rawDocV10 rfl

/-- Claim C1 (evaluation at the failing input): `forget` writes the
backup from the document object only after having popped the entry and
scrubbed its incoming links, so the backup does not contain the removed
entry — it equals the post-deletion document that is then persisted.
This contradicts the claimed pre-deletion snapshot semantics. -/
theorem claim_C1_backup_written_after_deletion :
    (forget ("user") ("name") docLinks).toOption.map
        (fun p => ((dget (dgetD p.2.2.memories ("user") []) ("name")).isSome,
          decide (p.2.2 = p.1))) = some (false, true) := by
  with_unfolding_all rfl

/-- Claim C7: a validation or not-found failure of `forget`, `recall`,
`add_link` or `remove_link` leaves the persisted document unchanged (the
read-modify-write wrapper saves only after the mutator returns), and the
failure modes named by the claim do raise. -/
theorem claim_C7_failed_ops_leave_doc (now : ℚ)
    (category key sc sk tc tk relation : String) (d : Doc) :
    errorFrameClaimProp now category key sc sk tc tk relation d := by
  unfold errorFrameClaimProp
  refine ⟨?_, ?_, ?_, ?_, ?_, ?_, ?_, ?_, ?_⟩
  · intro h
    unfold runForget
    cases hE : forget category key d with
    | ok v => rw [hE] at h; simp [isErr] at h
    | error e => rfl
  · intro h
    unfold runRecall
    cases hE : recallOp now category (some key) d with
    | ok v => rw [hE] at h; simp [isErr] at h
    | error e => rfl
  · intro h
    unfold runAddLink
    cases hE : addLink sc sk tc tk relation d with
    | ok v => rw [hE] at h; simp [isErr] at h
    | error e => rfl
  · intro h
    unfold runRemoveLink
    cases hE : removeLink sc sk tc tk d with
    | ok v => rw [hE] at h; simp [isErr] at h
    | error e => rfl
  · intro hcat hnone
    simp only [forget, if_pos hcat, hnone]
    rfl
  · intro hcat hnone
    simp only [recallOp, if_pos hcat, hnone]
    rfl
  · intro hsc htc hrel
    simp only [addLink, if_pos hsc, if_pos htc, if_neg hrel]
    rfl
  · intro hsc htc hnone
    simp only [addLink, if_pos hsc, if_pos htc, hnone]
    by_cases hrel : relation ∈ validRelations
    · rw [if_pos hrel]
      rfl
    · rw [if_neg hrel]
      rfl
  · intro hsc htc e he hlk
    simp only [removeLink, if_pos hsc, if_pos htc, he]
    have hfe : e.links.filter (fun lk => lk.target != tc ++ (".") ++ tk) = e.links := by
      apply List.filter_eq_self.mpr
      intro lk hm
      simpa using hlk lk hm
    rw [hfe]
    simp [isErr]

/-- Witness for C7 on the sample document: absent key, invalid relation,
missing endpoint and missing link all raise and keep the document. -/
theorem claim_C7_failed_ops_leave_doc_witness :
    errorFrameClaimProp 0 ("user") ("nope") ("user") ("name") ("user") ("zzz")
      ("badrel") docLinks :=
  claim_C7_failed_ops_leave_doc 0 ("user") ("nope") ("user") ("name") ("user")
    ("zzz") ("badrel") docLinks

theorem mem_insertionSort {α : Type} (r : α → α → Prop) [DecidableRel r]
    {a : α} {l : List α} : a ∈ List.insertionSort r l ↔ a ∈ l :=
  (List.perm_insertionSort r l).mem_iff

theorem isEmpty_insertionSort {α : Type} (r : α → α → Prop) [DecidableRel r]
    (l : List α) : (List.insertionSort r l).isEmpty = l.isEmpty := by
  cases hl : l with
  | nil => rfl
  | cons x xs =>
    have hlen := (List.perm_insertionSort r (x :: xs)).length_eq
    cases hs : List.insertionSort r (x :: xs) with
    | nil => rw [hs] at hlen; simp at hlen
    | cons y ys => rfl

theorem dcontains_of_dget {α : Type} {l : Dict α} {c : String} {v : α}
    (h : dget l c = some v) : dcontains l c = true := by
  unfold dcontains
  rw [h]
  rfl

theorem dcontains_outer_of_inner {α : Type} {mems : Dict (Dict α)}
    {c k : String} {v : α} (h : dget (dgetD mems c []) k = some v) :
    dcontains mems c = true := by
  unfold dcontains
  cases hmc : dget mems c with
  | none =>
    exfalso
    unfold dgetD at h
    rw [hmc] at h
    simp [dget] at h
  | some es => rfl

theorem remember_key_present (now : ℚ) (category key value : String)
    (tags : List String) (imp : ℤ) (sourceType : String) (conf : Option ℚ)
    (force broad : Bool) (d : Doc) (old : MemoryEntry)
    (hcat : category ∈ validCategories)
    (hold : dget (dgetD d.memories category []) key = some old) :
    ∃ d1 e,
      remember now category key value tags imp sourceType conf force broad d =
        .ok (d1, RememberResult.update e) ∧
      e.value = value ∧ e.created_at = old.created_at ∧ e.updated_at = some now ∧
      (tags = [] → e.tags = old.tags) ∧
      (tags ≠ [] → e.tags = List.insertionSort (fun a b => a ≤ b)
        ((old.tags ++ List.insertionSort (fun a b => a ≤ b) tags).dedup)) ∧
      e.confidence = (match conf with | some c => some c | none => old.confidence) ∧
      e.importance = clampImportance imp ∧ e.source = old.source ∧
      e.access_count = old.access_count ∧ e.last_accessed = old.last_accessed ∧
      e.status = old.status ∧ e.links = old.links := by
  have hcont : dcontains (dgetD d.memories category []) key = true :=
    dcontains_of_dget hold
  have hcontm : dcontains d.memories category = true :=
    dcontains_outer_of_inner hold
  have hmem0 : dsetdefault d.memories category ([] : Dict MemoryEntry) = d.memories := by
    unfold dsetdefault
    rw [hcontm]
    simp
  have hfc : ∀ rt : List String,
      findCandidates category key value rt broad d = [] := by
    intro rt
    simp only [findCandidates, hcont]
    simp
  have hrem : remember now category key value tags imp sourceType conf force broad d =
      .ok (doRemember now category key value
        (if tags.isEmpty then [] else List.insertionSort (fun a b => a ≤ b) tags)
        (clampImportance imp) sourceType conf d) := by
    simp only [remember, if_pos hcat]
    cases force
    · simp only [Bool.false_eq_true, if_false, hfc]
      rfl
    · simp
  rw [hrem]
  simp only [doRemember, hmem0, hold]
  cases htags : tags.isEmpty with
  | true =>
    have htags' : tags = [] := by simpa using htags
    cases conf with
    | none =>
      refine ⟨_, _, rfl, rfl, rfl, rfl, fun _ => rfl, ?_, rfl, rfl, rfl, rfl, rfl, rfl, rfl⟩
      intro hne
      exact absurd htags' hne
    | some c =>
      refine ⟨_, _, rfl, rfl, rfl, rfl, fun _ => rfl, ?_, rfl, rfl, rfl, rfl, rfl, rfl, rfl⟩
      intro hne
      exact absurd htags' hne
  | false =>
    have htags' : tags ≠ [] := by
      intro hnil
      rw [hnil] at htags
      simp at htags
    have hres : (List.insertionSort (fun a b : String => a ≤ b) tags).isEmpty = false := by
      rw [isEmpty_insertionSort]
      exact htags
    simp only [Bool.false_eq_true, if_false]
    rw [hres]
    simp only [Bool.false_eq_true, if_false]
    cases conf with
    | none =>
      exact ⟨_, _, rfl, rfl, rfl, rfl, fun h => absurd h htags', fun _ => rfl, rfl, rfl,
        rfl, rfl, rfl, rfl, rfl⟩
    | some c =>
      exact ⟨_, _, rfl, rfl, rfl, rfl, fun h => absurd h htags', fun _ => rfl, rfl, rfl,
        rfl, rfl, rfl, rfl, rfl⟩

/-- Claim C4: when the key already exists in the category, `remember`
with `force = false` always takes the UPDATE branch (merging tags by set
union, replacing the value, bumping `updated_at`) and never returns
dedup candidates, whatever the overlap with other entries. -/
theorem claim_C4_exact_key_always_updates (now : ℚ) (category key value : String)
    (tags : List String) (imp : ℤ) (sourceType : String) (conf : Option ℚ)
    (broad : Bool) (d : Doc) (old : MemoryEntry)
    (hcat : category ∈ validCategories)
    (hold : dget (dgetD d.memories category []) key = some old) :
    rememberUpdateClaimProp now category key value tags imp sourceType conf broad d old := by
  obtain ⟨d1, e, heq, hv, hc, hu, hte, htne, _, _, _, _, _, _, _⟩ :=
    remember_key_present now category key value tags imp sourceType conf false broad d old
      hcat hold
  refine ⟨d1, e, heq, hv, hu, ?_, hte⟩
  intro hne t
  rw [htne hne]
  rw [mem_insertionSort]
  rw [List.mem_dedup, List.mem_append]
  rw [mem_insertionSort]

/-- Witness for C4 on the sample document (key `name` exists). -/
theorem claim_C4_exact_key_always_updates_witness :
    rememberUpdateClaimProp 5 ("user") ("name") ("Alicia") [("identity")] 6
      ("session") none false docLinks eName :=
  claim_C4_exact_key_always_updates 5 ("user") ("name") ("Alicia") [("identity")] 6
    ("session") none false docLinks eName (by decide) rfl

/-- Claim C10: the UPDATE branch of `remember` (with or without `force`)
leaves `created_at`, `access_count`, `last_accessed`, `status`, `links`
and `source` unchanged, and a `None` confidence argument never
overwrites the stored confidence. -/
theorem claim_C10_update_frame (now : ℚ) (category key value : String)
    (tags : List String) (imp : ℤ) (sourceType : String) (conf : Option ℚ)
    (force broad : Bool) (d : Doc) (old : MemoryEntry)
    (hcat : category ∈ validCategories)
    (hold : dget (dgetD d.memories category []) key = some old) :
    rememberFrameClaimProp now category key value tags imp sourceType conf force broad d old := by
  obtain ⟨d1, e, heq, _, hc, _, _, _, hconf, _, hsrc, hac, hla, hst, hlk⟩ :=
    remember_key_present now category key value tags imp sourceType conf force broad d old
      hcat hold
  refine ⟨d1, e, heq, hc, hac, hla, hst, hlk, hsrc, ?_⟩
  intro hn
  rw [hn] at hconf
  exact hconf

/-- Witness for C10 on the sample document. -/
theorem claim_C10_update_frame_witness :
    rememberFrameClaimProp 5 ("user") ("name") ("Alicia") [] 6 ("session") none
      true false docLinks eName :=
  claim_C10_update_frame 5 ("user") ("name") ("Alicia") [] 6 ("session") none
    true false docLinks eName (by decide) rfl

theorem dget_append_absent {α : Type} {l : Dict α} {c : String}
    (h : dcontains l c = false) (v : α) : dget (l ++ [(c, v)]) c = some v := by
  induction l with
  | nil => simp [dget]
  | cons p rest ih =>
    unfold dcontains at h ih
    unfold dget at h ih ⊢
    rw [List.cons_append]
    rw [List.find?_cons] at h ⊢
    cases hpc : (p.1 == c) with
    | true =>
      rw [hpc] at h
      simp at h
    | false =>
      rw [hpc] at h
      exact ih h

theorem dgetD_dsetdefault_self {α : Type} (l : Dict α) (c : String) (v : α) :
    dgetD (dsetdefault l c v) c v = dgetD l c v := by
  unfold dsetdefault
  cases hc : dcontains l c with
  | true => simp
  | false =>
    simp only [Bool.false_eq_true, if_false]
    unfold dgetD
    rw [dget_append_absent hc v]
    unfold dcontains at hc
    cases hl : dget l c with
    | none => rfl
    | some w => rw [hl] at hc; simp at hc

theorem doRemember_add_tags (now : ℚ) (category key value : String)
    (rt : List String) (imp : ℤ) (sourceType : String) (conf : Option ℚ)
    (d : Doc) (d1 : Doc) (e : MemoryEntry)
    (h : doRemember now category key value rt imp sourceType conf d =
      (d1, RememberResult.add e)) : e.tags = rt := by
  simp only [doRemember] at h
  split at h
  · rw [Prod.mk.injEq] at h
    exact absurd h.2 (by simp)
  · rw [Prod.mk.injEq] at h
    obtain ⟨h1, h2⟩ := h
    rw [RememberResult.add.injEq] at h2
    rw [← h2]
    split <;> rfl

theorem doRemember_update_tags (now : ℚ) (category key value : String)
    (rt : List String) (imp : ℤ) (sourceType : String) (conf : Option ℚ)
    (d : Doc) (d1 : Doc) (e : MemoryEntry)
    (h : doRemember now category key value rt imp sourceType conf d =
      (d1, RememberResult.update e)) :
    ∃ old, dget (dgetD d.memories category []) key = some old ∧
      e.tags = (if rt.isEmpty then old.tags
        else List.insertionSort (fun a b => a ≤ b) ((old.tags ++ rt).dedup)) := by
  simp only [doRemember] at h
  split at h
  next existing heq =>
    rw [Prod.mk.injEq] at h
    obtain ⟨h1, h2⟩ := h
    rw [RememberResult.update.injEq] at h2
    refine ⟨existing, ?_, ?_⟩
    · rw [dgetD_dsetdefault_self] at heq
      exact heq
    · rw [← h2]
      cases conf <;> cases hrt : rt.isEmpty <;> rfl
  next heq =>
    rw [Prod.mk.injEq] at h
    exact absurd h.2 (by simp)

theorem remember_add_tags (now : ℚ) (category key value : String)
    (tags : List String) (imp : ℤ) (sourceType : String) (conf : Option ℚ)
    (force broad : Bool) (d : Doc) (d1 : Doc) (e : MemoryEntry)
    (h : remember now category key value tags imp sourceType conf force broad d =
      .ok (d1, RememberResult.add e)) :
    e.tags = (if tags.isEmpty then []
      else List.insertionSort (fun a b => a ≤ b) tags) := by
  simp only [remember] at h
  set rt := (if tags.isEmpty then ([] : List String)
    else List.insertionSort (fun a b : String => a ≤ b) tags) with hrt
  split at h
  · split at h
    · rw [Except.ok.injEq] at h
      exact doRemember_add_tags _ _ _ _ _ _ _ _ _ _ _ h
    · split at h
      · rw [Except.ok.injEq] at h
        exact doRemember_add_tags _ _ _ _ _ _ _ _ _ _ _ h
      · simp at h
  · simp at h

theorem remember_update_tags (now : ℚ) (category key value : String)
    (tags : List String) (imp : ℤ) (sourceType : String) (conf : Option ℚ)
    (force broad : Bool) (d : Doc) (d1 : Doc) (e : MemoryEntry)
    (h : remember now category key value tags imp sourceType conf force broad d =
      .ok (d1, RememberResult.update e)) :
    ∃ old, dget (dgetD d.memories category []) key = some old ∧
      e.tags = (if tags.isEmpty then old.tags
        else List.insertionSort (fun a b => a ≤ b)
          ((old.tags ++ List.insertionSort (fun a b => a ≤ b) tags).dedup)) := by
  have hconv : ∀ old : MemoryEntry,
      (if (if tags.isEmpty then []
          else List.insertionSort (fun a b : String => a ≤ b) tags).isEmpty then old.tags
        else List.insertionSort (fun a b => a ≤ b)
          ((old.tags ++ (if tags.isEmpty then []
            else List.insertionSort (fun a b : String => a ≤ b) tags)).dedup)) =
      (if tags.isEmpty then old.tags
        else List.insertionSort (fun a b => a ≤ b)
          ((old.tags ++ List.insertionSort (fun a b => a ≤ b) tags).dedup)) := by
    intro old
    cases ht : tags.isEmpty with
    | true => simp [ht]
    | false => simp [ht, isEmpty_insertionSort]
  simp only [remember] at h
  set rt := (if tags.isEmpty then ([] : List String)
    else List.insertionSort (fun a b : String => a ≤ b) tags) with hrt
  split at h
  · split at h
    · rw [Except.ok.injEq] at h
      obtain ⟨old, hold, htags⟩ := doRemember_update_tags _ _ _ _ _ _ _ _ _ _ _ h
      refine ⟨old, hold, ?_⟩
      rw [htags, hrt, hconv old]
    · split at h
      · rw [Except.ok.injEq] at h
        obtain ⟨old, hold, htags⟩ := doRemember_update_tags _ _ _ _ _ _ _ _ _ _ _ h
        refine ⟨old, hold, ?_⟩
        rw [htags, hrt, hconv old]
      · simp at h
  · simp at h

/-- Amended claim C3: the UPDATE branch with a nonempty tags argument
stores sorted duplicate-free tags, while the ADD branch stores the
sorted input tags with duplicates preserved (the claim fails as stated:
`sorted(tags)` in `remember` sorts but does not collapse duplicates for
new entries). -/
theorem claim_C3_tags_normalization (now : ℚ) (category key value : String)
    (tags : List String) (imp : ℤ) (sourceType : String) (conf : Option ℚ)
    (force broad : Bool) (d : Doc) :
    rememberTagsClaimProp now category key value tags imp sourceType conf force broad d := by
  constructor
  · intro d1 e h hne
    obtain ⟨old, _, htags⟩ :=
      remember_update_tags now category key value tags imp sourceType conf force broad d d1 e h
    have ht : tags.isEmpty = false := by
      cases tags with
      | nil => exact absurd rfl hne
      | cons a l => rfl
    rw [ht] at htags
    simp only [Bool.false_eq_true, if_false] at htags
    rw [htags]
    refine ⟨List.sorted_insertionSort _ _, ?_⟩
    exact ((List.perm_insertionSort _ _).nodup_iff).mpr (List.nodup_dedup _)
  · intro d1 e h
    have htags :=
      remember_add_tags now category key value tags imp sourceType conf force broad d d1 e h
    rw [htags]
    cases ht : tags.isEmpty with
    | true =>
      have : tags = [] := by simpa using ht
      rw [this]
      simp
    | false =>
      simp only [Bool.false_eq_true, if_false]
      exact ⟨List.sorted_insertionSort _ _, List.perm_insertionSort _ _⟩

/-- Witness for the amended C3 on the sample document (both the UPDATE
branch with duplicate input tags and the ADD branch are exercised by the
universally quantified statement; the hypotheses are instantiated
concretely). -/
theorem claim_C3_tags_normalization_witness :
    rememberTagsClaimProp 0 ("user") ("k") ("config value text") [("x"), ("x")] 5
      ("session") none false false emptyDoc :=
  claim_C3_tags_normalization 0 ("user") ("k") ("config value text") [("x"), ("x")]
    5 ("session") none false false emptyDoc

/-- Counterexample to claim C3 as stated: `remember` of a fresh key with
the duplicated tag list `["x", "x"]` stores the tag twice — the stored
list is not duplicate-free. -/
theorem claim_C3_counterexample :
    (remember 0 ("user") ("k") ("config value text") [("x"), ("x")] 5 ("session")
        none false false emptyDoc).toOption.map
      (fun p => (resultEntry p.2).map (fun e => e.tags)) = some (some [("x"), ("x")]) ∧
    ¬ ([("x"), ("x")] : List String).Nodup := by
  constructor
  · with_unfolding_all rfl
  · decide

theorem reasons_nonempty_iff (ov len : ℕ) (sim : ℚ) :
    (((if 2 ≤ ov then [("tag_overlap")] else ([] : List String)) ++
      (if decide (3 ≤ len) && decide ((0.6 : ℚ) ≤ sim) then [("value_similarity")]
        else [])).isEmpty = false) ↔
    (2 ≤ ov ∨ (3 ≤ len ∧ (0.6 : ℚ) ≤ sim)) := by
  by_cases h1 : 2 ≤ ov <;> by_cases h2 : 3 ≤ len <;> by_cases h3 : (0.6 : ℚ) ≤ sim <;>
    simp [h1, h2, h3]

theorem mem_findDedupCandidates_iff {newKey newValue : String}
    {newTags : List String} {entries : Dict MemoryEntry} {category : String}
    {c : Candidate} :
    c ∈ findDedupCandidates newKey newValue newTags entries category ↔
      ∃ ke, ke ∈ entries ∧ isDedupCandidate newKey newValue newTags ke ∧
        c = { category := category
              key := ke.1
              value := ke.2.value
              tags := ke.2.tags
              match_reason := String.intercalate (", ")
                ((if 2 ≤ tagOverlapCount newTags ke.2.tags then [("tag_overlap")] else []) ++
                  (if decide (3 ≤ (extractSignificantWords newValue).length) &&
                      decide ((0.6 : ℚ) ≤ valueSimilarityRatio
                        (extractSignificantWords newValue)
                        (extractSignificantWords ke.2.value)) then
                    [("value_similarity")] else []))
              tag_overlap := tagOverlapCount newTags ke.2.tags
              value_similarity := roundTo 2 (valueSimilarityRatio
                (extractSignificantWords newValue)
                (extractSignificantWords ke.2.value)) } := by
  simp only [findDedupCandidates, List.mem_filterMap]
  constructor
  · rintro ⟨a, ha, hfa⟩
    by_cases hbeq : (a.1 == newKey) = true
    · rw [if_pos hbeq] at hfa
      simp at hfa
    · rw [if_neg hbeq] at hfa
      by_cases hre : ((if 2 ≤ tagOverlapCount newTags a.2.tags then [("tag_overlap")] else ([] : List String)) ++
          (if decide (3 ≤ (extractSignificantWords newValue).length) &&
              decide ((0.6 : ℚ) ≤ valueSimilarityRatio (extractSignificantWords newValue)
                (extractSignificantWords a.2.value)) then [("value_similarity")]
            else [])).isEmpty = true
      · rw [if_pos hre] at hfa
        simp at hfa
      · rw [if_neg hre] at hfa
        rw [Option.some.injEq] at hfa
        refine ⟨a, ha, ⟨?_, ?_⟩, hfa.symm⟩
        · intro hk
          exact hbeq (by simp [hk])
        · exact (reasons_nonempty_iff _ _ _).mp (Bool.not_eq_true _ ▸ (by simpa using hre))
  · rintro ⟨ke, hke, ⟨hne, hcond⟩, hc⟩
    refine ⟨ke, hke, ?_⟩
    have hbeq : ¬((ke.1 == newKey) = true) := by simp [hne]
    rw [if_neg hbeq]
    have hre : ¬(((if 2 ≤ tagOverlapCount newTags ke.2.tags then [("tag_overlap")] else ([] : List String)) ++
        (if decide (3 ≤ (extractSignificantWords newValue).length) &&
            decide ((0.6 : ℚ) ≤ valueSimilarityRatio (extractSignificantWords newValue)
              (extractSignificantWords ke.2.value)) then [("value_similarity")]
          else [])).isEmpty = true) := by
      rw [Bool.not_eq_true]
      exact (reasons_nonempty_iff _ _ _).mpr hcond
    rw [if_neg hre]
    rw [hc]

theorem any_noop_iff (newKey newValue : String) (newTags : List String)
    (entries : Dict MemoryEntry) (category : String) :
    ((findDedupCandidates newKey newValue newTags entries category).any (fun c =>
      decide (3 ≤ (extractSignificantWords newValue).length) &&
        wordSetEq (extractSignificantWords newValue)
          (extractSignificantWords c.value)) = true) ↔
    (∃ ke ∈ entries, isDedupCandidate newKey newValue newTags ke ∧
      3 ≤ (extractSignificantWords newValue).length ∧
      wordSetEq (extractSignificantWords newValue)
        (extractSignificantWords ke.2.value) = true) := by
  rw [List.any_eq_true]
  constructor
  · rintro ⟨c, hcm, hf⟩
    obtain ⟨ke, hke, hcand, hceq⟩ := mem_findDedupCandidates_iff.mp hcm
    rw [hceq] at hf
    simp only [Bool.and_eq_true, decide_eq_true_eq] at hf
    exact ⟨ke, hke, hcand, hf.1, hf.2⟩
  · rintro ⟨ke, hke, hcand, hlen, hs⟩
    refine ⟨_, mem_findDedupCandidates_iff.mpr ⟨ke, hke, hcand, rfl⟩, ?_⟩
    simp only [Bool.and_eq_true, decide_eq_true_eq]
    exact ⟨hlen, hs⟩

theorem any_update_iff (newKey newValue : String) (newTags : List String)
    (entries : Dict MemoryEntry) (category : String) :
    ((findDedupCandidates newKey newValue newTags entries category).any (fun c =>
      decide (3 ≤ c.tag_overlap) || decide ((0.6 : ℚ) ≤ c.value_similarity)) = true) ↔
    (∃ ke ∈ entries, isDedupCandidate newKey newValue newTags ke ∧
      (3 ≤ tagOverlapCount newTags ke.2.tags ∨
        (0.6 : ℚ) ≤ roundTo 2 (valueSimilarityRatio (extractSignificantWords newValue)
          (extractSignificantWords ke.2.value)))) := by
  rw [List.any_eq_true]
  constructor
  · rintro ⟨c, hcm, hf⟩
    obtain ⟨ke, hke, hcand, hceq⟩ := mem_findDedupCandidates_iff.mp hcm
    rw [hceq] at hf
    simp only [Bool.or_eq_true, decide_eq_true_eq] at hf
    exact ⟨ke, hke, hcand, hf⟩
  · rintro ⟨ke, hke, hcand, hor⟩
    refine ⟨_, mem_findDedupCandidates_iff.mpr ⟨ke, hke, hcand, rfl⟩, ?_⟩
    simp only [Bool.or_eq_true, decide_eq_true_eq]
    exact hor

/-- Amended claim C5: over the candidate list produced by the dedup
scan, the recommendation is NOOP when some candidate entry has the same
significant-word set as the (substantial) new value; else UPDATE when
some candidate has tag overlap ≥ 3 **or value similarity rounded to two
decimals ≥ 0.6** (the code compares the rounded `value_similarity` it
stored in the candidate record, not the exact ratio, so e.g. a ratio of
25/42 ≈ 0.595 already triggers UPDATE); else ADD. -/
theorem claim_C5_recommendation_cascade (newKey newValue : String)
    (newTags : List String) (entries : Dict MemoryEntry) (category : String) :
    recommendClaimProp newKey newValue newTags entries category := by
  unfold recommendClaimProp
  refine ⟨?_, ?_, ?_⟩
  · intro hp
    simp only [recommendAction]
    rw [if_pos ((any_noop_iff newKey newValue newTags entries category).mpr hp)]
  · intro hnp hu
    simp only [recommendAction]
    rw [if_neg (fun h => hnp ((any_noop_iff newKey newValue newTags entries category).mp h)),
      if_pos ((any_update_iff newKey newValue newTags entries category).mpr hu)]
  · intro hnp hnu
    simp only [recommendAction]
    rw [if_neg (fun h => hnp ((any_noop_iff newKey newValue newTags entries category).mp h)),
      if_neg (fun h => hnu ((any_update_iff newKey newValue newTags entries category).mp h))]

/-- Counterexample to claim C5 as stated: with 42 significant new words
of which 25 occur in the candidate (similarity 25/42 < 0.6) and a tag
overlap of exactly 2, the claim's cascade says ADD, but the code stores
`round(25/42, 2) = 0.6` in the candidate and recommends UPDATE — and
`remember` surfaces that recommendation. -/
theorem claim_C5_counterexample :
    (findDedupCandidates ("new") wideValue [("t1"), ("t2")] roundingEntries
        ("user")).isEmpty = false ∧
    recommendAction (findDedupCandidates ("new") wideValue [("t1"), ("t2")]
      roundingEntries ("user")) wideValue = ("UPDATE") ∧
    recommendActionSpec (findDedupCandidates ("new") wideValue [("t1"), ("t2")]
      roundingEntries ("user")) wideValue = ("ADD") ∧
    (remember 0 ("user") ("new") wideValue [("t1"), ("t2")] 5 ("session") none
        false false roundingDoc).toOption.map
      (fun p => resultRecommendation p.2) = some (some ("UPDATE")) := by
  refine ⟨?_, ?_, ?_, ?_⟩
  · with_unfolding_all rfl
  · with_unfolding_all rfl
  · with_unfolding_all rfl
  · with_unfolding_all rfl

theorem scrub_entry_eq (ref : String) (ke : String × MemoryEntry) :
    scrubLinks ref ke =
    (ke.1, { ke.2 with links := ke.2.links.filter (fun lk => lk.target != ref) }) := by
  obtain ⟨k1, e1⟩ := ke
  unfold scrubLinks
  cases hl : e1.links.isEmpty with
  | false => rw [if_neg (by simp [hl])]
  | true =>
    have hnil : e1.links = [] := by simpa using hl
    rw [if_pos rfl]
    have hfe : e1.links.filter (fun lk => lk.target != ref) = e1.links := by
      rw [hnil]
      rfl
    rw [hfe]

theorem forget_ok_memories_shape (category key : String) (d : Doc)
    (d1 : Doc) (removed : MemoryEntry) (backup : Doc)
    (h : forget category key d = .ok (d1, removed, backup)) :
    d1.memories = removeIncomingLinks
      (dset d.memories category (derase (dgetD d.memories category []) key))
      (category ++ (".") ++ key) := by
  simp only [forget] at h
  split at h
  · split at h
    · simp at h
    · simp only [Except.ok.injEq, Prod.mk.injEq] at h
      rw [← h.1]
  · simp at h

/-- Claim C8: after a successful `forget(category, key)`, no surviving
entry in any category keeps a link whose target is `category.key`, while
every surviving entry survives with exactly its links to other targets. -/
theorem claim_C8_forget_scrubs_incoming_links (category key : String) (d : Doc)
    (hwf : DocWF d) : forgetLinksClaimProp category key d := by
  intro d1 removed backup h
  have hd1 := forget_ok_memories_shape category key d d1 removed backup h
  constructor
  · intro ces hces ke hke lk hlk
    rw [hd1] at hces
    simp only [removeIncomingLinks] at hces
    obtain ⟨ces0, hces0, hF⟩ := List.mem_map.mp hces
    rw [← hF] at hke
    obtain ⟨ke0, hke0, hG⟩ := List.mem_map.mp hke
    rw [scrub_entry_eq] at hG
    rw [← hG] at hlk
    simpa using (List.mem_filter.mp hlk).2
  · intro ces hces ke hke hnot
    rw [hd1]
    simp only [removeIncomingLinks]
    by_cases hc : ces.1 = category
    · have hkne : ke.1 ≠ key := fun hkk => hnot ⟨hc, hkk⟩
      have hdg : dget d.memories ces.1 = some ces.2 :=
        dget_of_mem_wf hwf.1 (by simpa using hces)
      have hcatE : dgetD d.memories category [] = ces.2 := by
        rw [← hc]
        unfold dgetD
        rw [hdg]
        rfl
      have hcont : dcontains d.memories category = true := by
        rw [← hc]
        exact dcontains_of_dget hdg
      have hmem1 : (category, derase ces.2 key) ∈
          dset d.memories category (derase (dgetD d.memories category []) key) := by
        unfold dset
        rw [if_pos hcont]
        have himg := List.mem_map_of_mem
          (fun p : String × Dict MemoryEntry =>
            if p.1 == category then (category, derase (dgetD d.memories category []) key)
            else p)
          hces
        simpa [hc, hcatE] using himg
      refine ⟨(derase ces.2 key).map (scrubLinks (category ++ (".") ++ key)), ?_, ?_⟩
      · have himg2 := List.mem_map_of_mem
          (fun ces : String × Dict MemoryEntry =>
            (ces.1, ces.2.map (scrubLinks (category ++ (".") ++ key))))
          hmem1
        rw [hc]
        simpa using himg2
      · have hmemke : ke ∈ derase ces.2 key := by
          unfold derase
          rw [List.mem_filter]
          exact ⟨hke, by simp [hkne]⟩
        have himg3 := List.mem_map_of_mem (scrubLinks (category ++ (".") ++ key)) hmemke
        rw [scrub_entry_eq] at himg3
        exact himg3
    · have hmem1 : ces ∈
          dset d.memories category (derase (dgetD d.memories category []) key) := by
        unfold dset
        by_cases hdc : dcontains d.memories category = true
        · rw [if_pos hdc]
          have himg := List.mem_map_of_mem
            (fun p : String × Dict MemoryEntry =>
              if p.1 == category then (category, derase (dgetD d.memories category []) key)
              else p)
            hces
          simpa [hc] using himg
        · rw [if_neg hdc]
          exact List.mem_append_left _ hces
      refine ⟨ces.2.map (scrubLinks (category ++ (".") ++ key)), ?_, ?_⟩
      · have himg2 := List.mem_map_of_mem
          (fun ces : String × Dict MemoryEntry =>
            (ces.1, ces.2.map (scrubLinks (category ++ (".") ++ key))))
          hmem1
        simpa using himg2
      · have himg3 := List.mem_map_of_mem (scrubLinks (category ++ (".") ++ key)) hke
        rw [scrub_entry_eq] at himg3
        exact himg3

/-- Witness for C8 on the sample document: links to `user.name` are
scrubbed, other links survive. -/
theorem claim_C8_forget_scrubs_incoming_links_witness :
    forgetLinksClaimProp ("user") ("name") docLinks :=
  claim_C8_forget_scrubs_incoming_links ("user") ("name") docLinks
    (by unfold DocWF DictWF; exact ⟨by decide, by decide⟩)

theorem filter_scoreEq_orderedInsert (s : ℚ) (x : SearchResult)
    (l : List SearchResult) :
    (l.orderedInsert scoreGe x).filter (fun r => decide (r.score = s)) =
      (if x.score = s then [x] else []) ++ l.filter (fun r => decide (r.score = s)) := by
  induction l with
  | nil => by_cases hx : x.score = s <;> simp [List.orderedInsert, hx]
  | cons y ys ih =>
    simp only [List.orderedInsert]
    by_cases hr : scoreGe x y
    · rw [if_pos hr]
      by_cases hx : x.score = s <;> simp [List.filter_cons, hx]
    · rw [if_neg hr]
      by_cases hy : y.score = s
      · have hx : ¬x.score = s := by
          intro hx
          apply hr
          unfold scoreGe
          rw [hx, hy]
        simp [List.filter_cons, hy, hx, ih]
      · by_cases hx : x.score = s <;> simp [List.filter_cons, hy, hx, ih]

theorem filter_scoreEq_insertionSort (s : ℚ) (l : List SearchResult) :
    (List.insertionSort scoreGe l).filter (fun r => decide (r.score = s)) =
      l.filter (fun r => decide (r.score = s)) := by
  induction l with
  | nil => rfl
  | cons x xs ih =>
    simp only [List.insertionSort]
    rw [filter_scoreEq_orderedInsert, ih]
    by_cases hx : x.score = s <;> simp [List.filter_cons, hx]

theorem mem_scanEntries_snd {expFn : ℚ → ℚ} {now : ℚ} {ql : String}
    {qts : List String} {cat : String} {r : SearchResult} :
    ∀ {es : Dict MemoryEntry}, r ∈ (scanEntries expFn now ql qts cat es).2 →
      ∃ k e, (k, e) ∈ es ∧ (findMatchReasons k e ql).isEmpty = false ∧
        r = mkResult expFn now ql qts cat k e := by
  intro es
  induction es with
  | nil =>
    intro h
    simp [scanEntries] at h
  | cons ke rest ih =>
    intro h
    obtain ⟨k0, e0⟩ := ke
    simp only [scanEntries] at h
    split at h
    next hm =>
      obtain ⟨k, e, hke, hmatch, hre⟩ := ih h
      exact ⟨k, e, List.mem_cons_of_mem _ hke, hmatch, hre⟩
    next hm =>
      rcases List.mem_cons.mp h with he | htl
      · refine ⟨k0, e0, List.mem_cons_self _ _, ?_, he⟩
        rw [Bool.not_eq_true] at hm
        exact hm
      · obtain ⟨k, e, hke, hmatch, hre⟩ := ih htl
        exact ⟨k, e, List.mem_cons_of_mem _ hke, hmatch, hre⟩

theorem mem_scanAll_snd {expFn : ℚ → ℚ} {now : ℚ} {ql : String}
    {qts : List String} {r : SearchResult} :
    ∀ {mems : List (String × Dict MemoryEntry)},
      r ∈ (scanAll expFn now ql qts mems).2 →
        ∃ c es, (c, es) ∈ mems ∧ r ∈ (scanEntries expFn now ql qts c es).2 := by
  intro mems
  induction mems with
  | nil =>
    intro h
    simp [scanAll] at h
  | cons ces rest ih =>
    intro h
    obtain ⟨c0, es0⟩ := ces
    simp only [scanAll] at h
    rcases List.mem_append.mp h with h1 | h2
    · exact ⟨c0, es0, List.mem_cons_self _ _, h1⟩
    · obtain ⟨c, es, hm, hr⟩ := ih h2
      exact ⟨c, es, List.mem_cons_of_mem _ hm, hr⟩

theorem findMatchReasons_isEmpty_false_iff (k : String) (e : MemoryEntry)
    (ql : String) :
    ((findMatchReasons k e ql).isEmpty = false) ↔
      ((strContains (lowerStr k) ql || strContains (lowerStr e.value) ql ||
        e.tags.any (fun t => strContains (lowerStr t) ql)) = true) := by
  unfold findMatchReasons
  cases h1 : strContains (lowerStr k) ql <;>
    cases h2 : strContains (lowerStr e.value) ql <;>
      cases h3 : e.tags.any (fun t => strContains (lowerStr t) ql) <;>
        simp [h1, h2, h3]

theorem abs_roundTo4_sub_le (x : ℚ) : |roundTo 4 x - x| ≤ 1 / 20000 := by
  unfold roundTo
  have h2 : |((round (x * 10 ^ 4) : ℤ) : ℚ) - x * 10 ^ 4| ≤ 1 / 2 := by
    rw [abs_sub_comm]
    exact abs_sub_round (x * 10 ^ 4)
  have hc : ((10 : ℚ) ^ 4) ≠ 0 := by norm_num
  have heq : ((round (x * 10 ^ 4) : ℤ) : ℚ) / 10 ^ 4 - x =
      (((round (x * 10 ^ 4) : ℤ) : ℚ) - x * 10 ^ 4) / 10 ^ 4 := by
    rw [sub_div]
    rw [mul_div_assoc]
    rw [div_self hc]
    rw [mul_one]
  rw [heq, abs_div]
  have habs : |(10 : ℚ) ^ 4| = 10 ^ 4 := by
    rw [abs_of_pos]
    norm_num
  rw [habs]
  rw [div_le_iff₀ (by norm_num : (0 : ℚ) < 10 ^ 4)]
  calc |((round (x * 10 ^ 4) : ℤ) : ℚ) - x * 10 ^ 4| ≤ 1 / 2 := h2
  _ = 1 / 20000 * 10 ^ 4 := by norm_num

/-- Claim C2: every result of a `search` call comes from a textually
matching entry of the pre-call document; its score is the (rounded)
weighted signal sum computed on the pre-mutation entry — in particular
the recency signal reads the `last_accessed` value from before this
call's access bump, whose effect is only visible in the returned
snapshot — and the result list is sorted by descending score with ties
keeping scan order. -/
theorem claim_C2_search_ranking (expFn : ℚ → ℚ) (now : ℚ) (query : String)
    (category : Option String) (d : Doc) :
    searchClaimProp expFn now query category d := by
  unfold searchClaimProp
  have hrepr : (searchRun expFn now query category d).2 =
      List.insertionSort scoreGe (searchScanResults expFn now (lowerStr query)
        (splitWs (lowerStr query)) category d.memories) := by
    cases category <;> rfl
  refine ⟨?_, ?_, ?_⟩
  · intro r hr
    rw [hrepr, mem_insertionSort] at hr
    cases category with
    | none =>
      obtain ⟨c, es, hmem, hr2⟩ := mem_scanAll_snd hr
      obtain ⟨k, e, hke, hmatch, hre⟩ := mem_scanEntries_snd hr2
      subst hre
      refine ⟨c, es, e, hmem, hke, rfl, ?_, ?_, rfl, ?_, rfl⟩
      · intro c0 hc0
        exact Option.noConfusion hc0
      · exact (findMatchReasons_isEmpty_false_iff k e (lowerStr query)).mp hmatch
      · exact abs_roundTo4_sub_le _
    | some c =>
      obtain ⟨k, e, hke, hmatch, hre⟩ := mem_scanEntries_snd hr
      subst hre
      cases hdc : dget d.memories c with
      | none =>
        exfalso
        unfold dgetD at hke
        rw [hdc] at hke
        simp at hke
      | some es =>
        have hmem : (c, es) ∈ d.memories := mem_of_dget hdc
        have hes : dgetD d.memories c [] = es := by
          unfold dgetD
          rw [hdc]
          rfl
        rw [hes] at hke
        refine ⟨c, es, e, hmem, hke, rfl, ?_, ?_, rfl, ?_, rfl⟩
        · intro c0 hc0
          exact (Option.some.inj hc0).symm ▸ rfl
        · exact (findMatchReasons_isEmpty_false_iff k e (lowerStr query)).mp hmatch
        · exact abs_roundTo4_sub_le _
  · rw [hrepr]
    exact List.sorted_insertionSort scoreGe _
  · intro s
    rw [hrepr]
    exact filter_scoreEq_insertionSort s _

/-- Witness for C2 on the sample document. -/
theorem claim_C2_search_ranking_witness :
    searchClaimProp (fun _ => 1) 10 ("ali") none docLinks :=
  claim_C2_search_ranking (fun _ => 1) 10 ("ali") none docLinks

/-- Witness for the amended C5 on the rounding document. -/
theorem claim_C5_recommendation_cascade_witness :
    recommendClaimProp ("new") wideValue [("t1"), ("t2")] roundingEntries ("user") :=
  claim_C5_recommendation_cascade ("new") wideValue [("t1"), ("t2")] roundingEntries
    ("user")

end MemoryMcp